import Mathlib

/-!
Shallow embedding of the core of the gn "gen" command (src/gn/command_gen.cc)
and verification of the specification claims about it.

The data model (Label, Target, Builder, the aggregator) follows the data
model section of the specification for the types whose definitions live
outside this file, and the functions of command_gen.cc are translated
directly from the source.
-/

namespace GnGen

/-- A build item identifier.  The specification's data model: a directory
path, a name, and a toolchain label, with the total (lexicographic) order
over the triple.  The toolchain component is kept as its rendered string. -/
structure Label where
  dir : String
  name : String
  toolchain : String
deriving DecidableEq, Repr

/-- Key used to pull back the lexicographic linear order on the triple. -/
def labelKey (l : Label) : Lex (List Char × Lex (List Char × List Char)) :=
  toLex (l.dir.data, toLex (l.name.data, l.toolchain.data))

/-- Modelled from the spec: Labels have total ordering, lexicographic over
the (dir, name, toolchain) triple.  (Label's comparison operator lives in
gn/label.cc, outside the sources under verification.) -/
instance : LinearOrder Label :=
  LinearOrder.lift' labelKey (by
    intro a b h
    obtain ⟨ad, an, att⟩ := a
    obtain ⟨bd, bn, bt⟩ := b
    have h' : (ad.data, (an.data, att.data)) = (bd.data, (bn.data, bt.data)) := h
    simp only [Prod.mk.injEq] at h'
    obtain ⟨h1, h2, h3⟩ := h'
    have e1 : ad = bd := String.ext h1
    have e2 : an = bn := String.ext h2
    have e3 : att = bt := String.ext h3
    rw [e1, e2, e3])

/-- Modelled from the spec: rendering of a label for diagnostics, with the
toolchain suffix appended exactly when `include_toolchain` is set.
(Label::GetUserVisibleName lives in gn/label.cc, outside the sources under
verification; the spec requires that the toolchain annotation appears iff
the flag is set.) -/
def Label.getUserVisibleName (l : Label) (include_toolchain : Bool) : String :=
  "//" ++ l.dir ++ ":" ++ l.name ++
    (if include_toolchain then "(" ++ l.toolchain ++ ")" else "")

/-- Modelled from the spec: the BuildSettings component an OutputFile is
computed from.  Only the deterministic SourceFile-to-OutputFile computation
matters here; it is modelled as prefixing the build directory. -/
structure BuildSettings where
  buildDir : String
deriving DecidableEq, Repr

/-- Modelled from the spec: an OutputFile is computable deterministically
from (BuildSettings, SourceFile); equality is byte-exact.  This models the
OutputFile constructor used at command_gen.cc:100. -/
def outputFileOf (bs : BuildSettings) (file : String) : String :=
  bs.buildDir ++ file

/-- The per-target settings accessed by command_gen.cc: the target's
toolchain label, the default toolchain label, and the build settings. -/
structure Settings where
  toolchain_label : Label
  default_toolchain_label : Label
  build_settings : BuildSettings
deriving DecidableEq, Repr

/-- A resolved target, with the fields command_gen.cc reads: label,
settings, computed outputs, declared sources, jumbo classification and
binary classification, and the toolchain key used by the aggregator. -/
structure Target where
  label : Label
  settings : Settings
  toolchain : Label
  computed_outputs : List String
  sources : List String
  is_jumbo_configured : Bool
  is_jumbo_allowed : Bool
  IsBinary : Bool
deriving DecidableEq, Repr

/-- A resolved build item: either a target or some other item kind
(config, toolchain definition, pool, ...). -/
inductive Item where
  | target (t : Target)
  | other (name : String)
deriving DecidableEq, Repr

/-- Item::AsTarget, returning the target when the item is one. -/
def Item.AsTarget : Item → Option Target
  | .target t => some t
  | .other _ => none

/-- The builder's handle to a resolved item, as seen by the callback. -/
structure BuilderRecord where
  item : Item
deriving DecidableEq, Repr

/-- The builder, restricted to what command_gen.cc reads from it after
resolution: the resolved targets. -/
structure Builder where
  resolvedTargets : List Target
deriving DecidableEq, Repr

/-- Builder::GetAllResolvedTargets. -/
def Builder.GetAllResolvedTargets (b : Builder) : List Target :=
  b.resolvedTargets

/-! ## The aggregator (TargetWriteInfo) and the worker write path -/

/-- NinjaWriter::PerToolchainRules: for each toolchain, the sequence of
(target, rule fragment) pairs collected by the workers.  Modelled as an
association list; only the per-toolchain sequences matter to the claims
(the outer map of the source is keyed by toolchain pointer). -/
abbrev PerToolchainRules := List (GnGen.Label × List (GnGen.Target × String))

/-- Append one (target, rule) pair to the sequence of the given toolchain,
creating the toolchain entry when absent: the effect of
write_info->rules[toolchain].emplace_back(target, rule). -/
def addRule (rules : PerToolchainRules) (tc : Label) (e : Target × String) :
    PerToolchainRules :=
  match rules with
  | [] => [(tc, [e])]
  | (k, es) :: rest =>
      if k = tc then (k, es ++ [e]) :: rest else (k, es) :: addRule rest tc e

/-- The per-toolchain sequence held for a toolchain (empty when absent). -/
def lookupRules (rules : PerToolchainRules) (tc : Label) : List (Target × String) :=
  match rules with
  | [] => []
  | (k, es) :: rest => if k = tc then es else lookupRules rest tc

/-- BackgroundDoWrite (command_gen.cc:69): run the injected per-target
writer and append the produced rule under the target's toolchain.  The
injected NinjaTargetWriter::RunAndWriteFile is the parameter writeRule. -/
def BackgroundDoWrite (writeRule : Target → String) (write_info : PerToolchainRules)
    (target : Target) : PerToolchainRules :=
  addRule write_info target.toolchain (target, writeRule target)

/-- ItemResolvedAndGeneratedCallback (command_gen.cc:81): classify the
record's item; for a target, schedule exactly one BackgroundDoWrite task.
The returned list is the sequence of scheduled per-target write tasks. -/
def ItemResolvedAndGeneratedCallback (record : BuilderRecord) : List Target :=
  match record.item.AsTarget with
  | some target => [target]
  | none => []

/-- Run a sequence of scheduled BackgroundDoWrite tasks against the
aggregator. -/
def runScheduled (writeRule : Target → String) (write_info : PerToolchainRules)
    (tasks : List Target) : PerToolchainRules :=
  tasks.foldl (BackgroundDoWrite writeRule) write_info

/-! ## The finalization sort (command_gen.cc:549-554) -/

/-- The order imposed by the sort comparator
a.first->label() < b.first->label(): the sorted output of std::sort is
nondecreasing under the negation of the strict comparator. -/
def ruleLe (a b : Target × String) : Prop := a.1.label ≤ b.1.label

instance : DecidableRel ruleLe := fun a b =>
  inferInstanceAs (Decidable (a.1.label ≤ b.1.label))

instance : IsTotal (Target × String) ruleLe := ⟨fun a b => le_total a.1.label b.1.label⟩

instance : IsTrans (Target × String) ruleLe := ⟨fun _ _ _ => le_trans⟩

/-- The sort of one toolchain's sequence by the Target's Label
(command_gen.cc:550-554).  std::sort is modelled by a sorting function
meeting its contract. -/
def sortToolchainRules (l : List (Target × String)) : List (Target × String) :=
  l.insertionSort ruleLe

/-- The finalization pass: sort every toolchain's sequence
(the loop at command_gen.cc:549). -/
def finalizeRules (rules : PerToolchainRules) : PerToolchainRules :=
  rules.map (fun p => (p.1, sortToolchainRules p.2))

/-! ## The generated-input validator (command_gen.cc:94-190) -/

/-- FindTargetThatGeneratesFile (command_gen.cc:94): scan all resolved
targets for one whose computed_outputs contain the OutputFile
corresponding to the file; null when the builder holds no targets. -/
def FindTargetThatGeneratesFile (builder : Builder) (file : String) : Option Target :=
  let targets := builder.GetAllResolvedTargets
  match targets with
  | [] => none
  | t0 :: _ =>
      let output_file := outputFileOf t0.settings.build_settings file
      targets.find? (fun target => target.computed_outputs.contains output_file)

/-- The show_toolchains computation of PrintInvalidGeneratedInput
(command_gen.cc:119-132): display toolchain labels iff some consumer
target, or the generator when there is one, is not on the default
toolchain.  The default toolchain label is read from the first consumer's
settings. -/
def showToolchains (builder : Builder) (file : String) (targets : List Target) : Bool :=
  match targets with
  | [] => false
  | t0 :: _ =>
      let default_toolchain := t0.settings.default_toolchain_label
      (targets.any fun t => decide (t.settings.toolchain_label ≠ default_toolchain)) ||
        (match FindTargetThatGeneratesFile builder file with
         | some generator => decide (generator.settings.toolchain_label ≠ default_toolchain)
         | none => false)

/-- A printed diagnostic: headline and multi-line detail, the two pieces of
the Err value printed at command_gen.cc:149-151. -/
structure Diag where
  headline : String
  message : String
deriving DecidableEq, Repr

/-- Concatenation of a list of string pieces, in order: the sequence of
err += piece statements of the source. -/
def concatAll : List String → String
  | [] => ""
  | s :: rest => s ++ concatAll rest

/-- PrintInvalidGeneratedInput (command_gen.cc:112-152), returning the
diagnostic it prints.  The callers always pass a nonempty target list (a
group collected from at least one multimap entry); on the empty list the
source would index targets[0], which never happens. -/
def PrintInvalidGeneratedInput (builder : Builder) (file : String)
    (targets : List Target) : Diag :=
  match targets with
  | [] => ⟨"", ""⟩
  | _ :: _ =>
      let show_toolchains := showToolchains builder file targets
      let generator := FindTargetThatGeneratesFile builder file
      let target_str := if targets.length > 1 then "targets" else "target"
      let err :=
        "The file:\n" ++ ("  " ++ file ++ "\n") ++
          ("is listed as an input or source for the " ++ target_str ++ ":\n") ++
          concatAll (targets.map fun t =>
            "  " ++ t.label.getUserVisibleName show_toolchains ++ "\n") ++
          (match generator with
           | some g =>
               "but this file was not generated by any dependencies of the " ++
                 target_str ++ ". The target\nthat generates the file is:\n  " ++
                 g.label.getUserVisibleName show_toolchains
           | none => "but no targets in the build generate that file.")
      ⟨"Input to " ++ target_str ++ " not generated by a dependency.", err⟩

/-! ## The unknown-generated-inputs multimap and the check
(command_gen.cc:154-190) -/

/-- The key order of std::multimap<SourceFile, const Target*>: SourceFile
comparison is byte-exact string comparison. -/
def mmLe (a b : String × Target) : Prop := a.1.data ≤ b.1.data

instance : DecidableRel mmLe := fun a b =>
  inferInstanceAs (Decidable (a.1.data ≤ b.1.data))

instance : IsTotal (String × Target) mmLe := ⟨fun a b => le_total a.1.data b.1.data⟩

instance : IsTrans (String × Target) mmLe := ⟨fun _ _ _ => le_trans⟩

/-- The snapshot returned by GetUnknownGeneratedInputs: the entries of the
std::multimap in iteration order, given the population (insertion) order.
A std::multimap iterates in ascending key order, with entries of equal
keys in insertion order (insertion is at the upper bound of the key); that
is exactly a stable sort of the insertion sequence by the key order. -/
def mmSnapshot (log : List (String × Target)) : List (String × Target) :=
  log.insertionSort mmLe

/-- One pass of the grouping loop of CheckForInvalidGeneratedInputs
(command_gen.cc:161-174): take the range of entries sharing the first
entry's key (cur to upper_bound(cur->first)), package its targets, and
continue after the range. -/
def collectGroups (l : List (String × Target)) : List (String × List Target) :=
  match l with
  | [] => []
  | (f, t) :: rest =>
      (f, t :: (rest.takeWhile (fun e => decide (e.1 = f))).map Prod.snd) ::
        collectGroups (rest.dropWhile (fun e => decide (e.1 = f)))
termination_by l.length
decreasing_by
  exact Nat.lt_succ_of_le (List.dropWhile_sublist _).length_le

/-- The outcome of CheckForInvalidGeneratedInputs: the boolean result, the
diagnostics printed (one per group), and the summary count printed when
more than one group was found. -/
structure CheckResult where
  ok : Bool
  diags : List Diag
  summaryCount : Option Nat
deriving DecidableEq, Repr

/-- CheckForInvalidGeneratedInputs (command_gen.cc:154-190): succeed when
the multimap snapshot is empty; otherwise print one diagnostic per group
of entries sharing a SourceFile, fail, and print a summary count when more
than one group was found. -/
def CheckForInvalidGeneratedInputs (builder : Builder)
    (log : List (String × Target)) : CheckResult :=
  let unknown_inputs := mmSnapshot log
  if unknown_inputs.isEmpty then
    ⟨true, [], none⟩
  else
    let groups := collectGroups unknown_inputs
    let diags := groups.map fun g => PrintInvalidGeneratedInput builder g.1 g.2
    let errors_found := groups.length
    ⟨false, diags, if errors_found > 1 then some errors_found else none⟩

/-! ## RunIdeWriter (command_gen.cc:192-313) -/

/-- The process command line, restricted to what command_gen.cc reads:
switch presence and switch values. -/
structure CmdLine where
  switches : List (String × String)
deriving DecidableEq, Repr

/-- base::CommandLine::HasSwitch. -/
def CmdLine.HasSwitch (cl : CmdLine) (s : String) : Bool :=
  (cl.switches.find? fun p => decide (p.1 = s)).isSome

/-- base::CommandLine::GetSwitchValueASCII (empty when absent). -/
def CmdLine.GetSwitchValueASCII (cl : CmdLine) (s : String) : String :=
  ((cl.switches.find? fun p => decide (p.1 = s)).map Prod.snd).getD ""

/-- VisualStudioWriter::Version. -/
inductive VsVersion where
  | vs2013
  | vs2015
  | vs2017
  | vs2019
deriving DecidableEq, Repr

/-- Which injected project writer RunIdeWriter dispatched to. -/
inductive IdeWriterKind where
  | eclipse
  | visualStudio (version : VsVersion)
  | xcode
  | qtcreator
  | json
deriving DecidableEq, Repr

/-- Success results of the injected IDE writers (each models the boolean
returned by the corresponding RunAndWriteFile(s) call). -/
structure WriterOutcomes where
  eclipse : Bool
  visualStudio : Bool
  xcode : Bool
  qtcreator : Bool
  json : Bool
deriving DecidableEq, Repr

/-- The observable outcome of RunIdeWriter: the boolean it returns, the
writer it invoked (none when it errored before dispatch), and the error
message this function itself assigns (the injected writers own their error
values, which are outside this file's scope). -/
structure IdeResult where
  res : Bool
  invoked : Option IdeWriterKind
  errMsg : Option String
deriving DecidableEq, Repr

/-- RunIdeWriter (command_gen.cc:192-313): dispatch on the IDE tag; for
the visual-studio family select a version; for xcode validate the
xcode-build-system switch before invoking the writer; unknown tags fail
with an Unknown IDE error. -/
def RunIdeWriter (ide : String) (command_line : CmdLine)
    (writers : WriterOutcomes) : IdeResult :=
  if ide = "eclipse" then
    ⟨writers.eclipse, some .eclipse, none⟩
  else if ide = "vs" ∨ ide = "vs2013" ∨ ide = "vs2015" ∨ ide = "vs2017" ∨
      ide = "vs2019" then
    let version : VsVersion :=
      if ide = "vs2013" then .vs2013
      else if ide = "vs2015" then .vs2015
      else if ide = "vs2017" then .vs2017
      else .vs2019
    ⟨writers.visualStudio, some (.visualStudio version), none⟩
  else if ide = "xcode" then
    let build_system := command_line.GetSwitchValueASCII "xcode-build-system"
    if build_system ≠ "" then
      if build_system = "new" then ⟨writers.xcode, some .xcode, none⟩
      else if build_system = "legacy" then ⟨writers.xcode, some .xcode, none⟩
      else ⟨false, none, some ("Unknown build system: " ++ build_system)⟩
    else ⟨writers.xcode, some .xcode, none⟩
  else if ide = "qtcreator" then
    ⟨writers.qtcreator, some .qtcreator, none⟩
  else if ide = "json" then
    ⟨writers.json, some .json, none⟩
  else
    ⟨false, none, some ("Unknown IDE: " ++ ide)⟩

/-- The closed set of recognized IDE tags. -/
def knownIdeTags : List String :=
  ["eclipse", "vs", "vs2013", "vs2015", "vs2017", "vs2019", "xcode",
    "qtcreator", "json"]

/-- Modelled from the spec: the tag-to-writer correspondence of the closed
set (section 6 of the specification). -/
def specKindForTag (ide : String) : Option IdeWriterKind :=
  if ide = "eclipse" then some .eclipse
  else if ide = "vs" then some (.visualStudio .vs2019)
  else if ide = "vs2013" then some (.visualStudio .vs2013)
  else if ide = "vs2015" then some (.visualStudio .vs2015)
  else if ide = "vs2017" then some (.visualStudio .vs2017)
  else if ide = "vs2019" then some (.visualStudio .vs2019)
  else if ide = "xcode" then some .xcode
  else if ide = "qtcreator" then some .qtcreator
  else if ide = "json" then some .json
  else none

/-! ## Jumbo statistics (command_gen.cc:543-567 and 610-631) -/

/-- std::set insertion for the not-configured bucket: add the target when
not yet present (the real set is keyed by pointer identity; a resolved
target has one identity). -/
def setInsert (s : List Target) (t : Target) : List Target :=
  if t ∈ s then s else s ++ [t]

/-- The jumbo tally accumulated by the loop at command_gen.cc:556-567:
allowed count, disallowed count, and the not-configured bucket. -/
def jumboStep (acc : Nat × Nat × List Target) (rule : Target × String) :
    Nat × Nat × List Target :=
  if rule.1.is_jumbo_configured then
    if rule.1.is_jumbo_allowed then (acc.1 + 1, acc.2.1, acc.2.2)
    else (acc.1, acc.2.1 + 1, acc.2.2)
  else if rule.1.IsBinary then (acc.1, acc.2.1, setInsert acc.2.2 rule.1)
  else acc

/-- The full jumbo tally over every toolchain's (sorted) sequence: the
nested loops at command_gen.cc:549-567. -/
def jumboTally (rules : PerToolchainRules) : Nat × Nat × List Target :=
  rules.foldl (fun acc p => p.2.foldl jumboStep acc) (0, 0, [])

/-- The order imposed by the not-configured report sort comparator
a->sources().size() < b->sources().size() (command_gen.cc:614-617). -/
def srcCountLe (a b : Target) : Prop := a.sources.length ≤ b.sources.length

instance : DecidableRel srcCountLe := fun a b =>
  inferInstanceAs (Decidable (a.sources.length ≤ b.sources.length))

instance : IsTotal Target srcCountLe := ⟨fun _ _ => Nat.le_total _ _⟩

instance : IsTrans Target srcCountLe := ⟨fun _ _ _ => Nat.le_trans⟩

/-- The printed not-configured bucket: sorted ascending by number of
source files (command_gen.cc:611-617). -/
def jumboNotConfiguredReport (nc : List Target) : List Target :=
  nc.insertionSort srcCountLe

/-! ## RunGen (command_gen.cc:504-649) -/

/-- The external outcomes RunGen observes: the command line, the results
of setup, load, the main ninja writer, the runtime-deps step, the injected
IDE and exporter writers, the resolved graph, the unknown-generated-inputs
population, and the injected per-target writer. -/
structure GenEnv where
  cmdline : CmdLine
  setupOk : Bool
  loadOk : Bool
  resolvedTargets : List Target
  unknownLog : List (String × Target)
  writeRule : Target → String
  ninjaWriteOk : Bool
  runtimeDepsOk : Bool
  writers : WriterOutcomes
  compileCommandsOk : Bool
  rustProjectOk : Bool

/-- The builder as RunGen sees it after a successful load. -/
def GenEnv.builder (env : GenEnv) : Builder :=
  ⟨env.resolvedTargets⟩

/-- RunGen (command_gen.cc:504-649), as its exit code: usage check, setup,
load, the main ninja write, the runtime-deps step, the generated-inputs
check, and the optional IDE / compile-commands / rust-project writers, in
the source's order; 0 only when every step succeeds. -/
def RunGen (env : GenEnv) (args : List String) : Nat :=
  if args.length ≠ 1 then 1
  else if env.setupOk = false then 1
  else if env.loadOk = false then 1
  else if env.ninjaWriteOk = false then 1
  else if env.runtimeDepsOk = false then 1
  else if (CheckForInvalidGeneratedInputs env.builder env.unknownLog).ok = false then 1
  else if env.cmdline.HasSwitch "ide" &&
      !(RunIdeWriter (env.cmdline.GetSwitchValueASCII "ide") env.cmdline
          env.writers).res then 1
  else if env.cmdline.HasSwitch "export-compile-commands" &&
      !env.compileCommandsOk then 1
  else if env.cmdline.HasSwitch "export-rust-project" && !env.rustProjectOk then 1
  else 0

/-! ## Spec-side order for the grouping claim -/

/-- The order stated by the specification for the validator's groups: the
SourceFiles in the order in which they were first added during resolution
(first-seen order of the population sequence).  This definition follows
the specification's words, to be compared with the multimap's actual
iteration order. -/
def specInsertionOrder : List String → List String
  | [] => []
  | f :: rest => f :: specInsertionOrder (rest.filter fun x => decide (x ≠ f))
termination_by l => l.length
decreasing_by
  exact Nat.lt_succ_of_le (List.filter_sublist _).length_le

/-! ## Concrete values used by the witnesses and counterexamples -/

def bsDemo : BuildSettings := ⟨"//out/"⟩

def tcDefault : Label := ⟨"toolchains", "default", ""⟩

def tcAlt : Label := ⟨"toolchains", "alt", ""⟩

def stDemo : Settings := ⟨tcDefault, tcDefault, bsDemo⟩

/-- A consumer target that lists a generated file. -/
def tgtA : Target :=
  ⟨⟨"a", "a", ""⟩, stDemo, tcDefault, [], ["a1.cc", "a2.cc"], false, false, true⟩

/-- A producer target whose computed outputs contain //out/gen/b.h. -/
def tgtB : Target :=
  ⟨⟨"b", "b", ""⟩, stDemo, tcDefault, ["//out/gen/b.h"], ["b1.cc"], false, false, true⟩

/-- A jumbo-configured, jumbo-allowed target that is not binary. -/
def tgtJ : Target :=
  ⟨⟨"j", "j", ""⟩, stDemo, tcDefault, [], ["j1.cc"], true, true, false⟩

def builderDemo : Builder := ⟨[tgtA, tgtB]⟩

def writersDemo : WriterOutcomes := ⟨true, true, true, true, true⟩

def envDemo : GenEnv :=
  ⟨⟨[]⟩, true, true, [tgtA, tgtB], [], fun _ => "rule", true, true,
    writersDemo, true, true⟩

/-- An environment whose command line selects an unknown IDE. -/
def envUnknownIde : GenEnv :=
  ⟨⟨[("ide", "unknown")]⟩, true, true, [], [], fun _ => "rule", true, true,
    writersDemo, true, true⟩

/-! ## Helper lemmas -/

theorem lookupRules_addRule_self (rules : PerToolchainRules) (tc : Label)
    (e : Target × String) :
    lookupRules (addRule rules tc e) tc = lookupRules rules tc ++ [e] := by
  induction rules with
  | nil => simp [addRule, lookupRules]
  | cons p rest ih =>
    obtain ⟨k, es⟩ := p
    by_cases h : k = tc
    · simp [addRule, lookupRules, h]
    · simp [addRule, lookupRules, h, ih]

theorem lookupRules_addRule_other (rules : PerToolchainRules) (tc tc' : Label)
    (e : Target × String) (h : tc' ≠ tc) :
    lookupRules (addRule rules tc e) tc' = lookupRules rules tc' := by
  have hne : ¬ tc = tc' := fun hh => h hh.symm
  induction rules with
  | nil => simp [addRule, lookupRules, hne]
  | cons p rest ih =>
    obtain ⟨k, es⟩ := p
    by_cases hk : k = tc
    · subst hk
      simp [addRule, lookupRules, hne]
    · simp only [addRule, if_neg hk, lookupRules]
      by_cases hk' : k = tc'
      · simp [hk']
      · simp [hk', ih]

theorem concatAll_split {α : Type} (f : α → String) {t : α} {l : List α}
    (h : t ∈ l) : ∃ p q, concatAll (l.map f) = p ++ (f t ++ q) := by
  induction l with
  | nil => cases h
  | cons a rest ih =>
    rcases List.mem_cons.mp h with rfl | hmem
    · exact ⟨"", concatAll (rest.map f), rfl⟩
    · obtain ⟨p, q, hpq⟩ := ih hmem
      refine ⟨f a ++ p, q, ?_⟩
      simp only [List.map_cons, concatAll, hpq, String.append_assoc]

/-- Two sorted permutations of a sequence of (target, rule) pairs whose
labels are pairwise distinct are equal: the strict label order is
antisymmetric, and sortedness under the weak order plus distinctness of
labels gives sortedness under the strict order. -/
theorem sorted_perm_unique {l₁ l₂ : List (Target × String)}
    (hperm : l₁.Perm l₂)
    (hnodup : (l₁.map fun e => e.1.label).Nodup)
    (hs₁ : List.Sorted ruleLe l₁) (hs₂ : List.Sorted ruleLe l₂) : l₁ = l₂ := by
  have hne₁ : l₁.Pairwise fun a b : Target × String => a.1.label ≠ b.1.label :=
    List.pairwise_map.mp hnodup
  have hnodup₂ : (l₂.map fun e => e.1.label).Nodup :=
    (hperm.map fun e => e.1.label).nodup_iff.mp hnodup
  have hne₂ : l₂.Pairwise fun a b : Target × String => a.1.label ≠ b.1.label :=
    List.pairwise_map.mp hnodup₂
  have hstrict₁ : List.Sorted (fun a b : Target × String => a.1.label < b.1.label) l₁ :=
    (hs₁.and hne₁).imp fun h => lt_of_le_of_ne h.1 h.2
  have hstrict₂ : List.Sorted (fun a b : Target × String => a.1.label < b.1.label) l₂ :=
    (hs₂.and hne₂).imp fun h => lt_of_le_of_ne h.1 h.2
  haveI : IsAntisymm (Target × String)
      (fun a b : Target × String => a.1.label < b.1.label) :=
    ⟨fun _ _ h1 h2 => absurd h2 (lt_asymm h1)⟩
  exact List.eq_of_perm_of_sorted hperm hstrict₁ hstrict₂

theorem filter_orderedInsert_neg {α : Type} (r : α → α → Prop) [DecidableRel r]
    (p : α → Bool) (a : α) (l : List α) (ha : p a = false) :
    (l.orderedInsert r a).filter p = l.filter p := by
  induction l with
  | nil => simp [List.orderedInsert, ha]
  | cons b rest ih =>
    by_cases h : r a b
    · simp [List.orderedInsert, h, List.filter_cons, ha]
    · simp [List.orderedInsert, h, List.filter_cons, ih]

theorem filter_orderedInsert_pos {α : Type} (r : α → α → Prop) [DecidableRel r]
    (p : α → Bool) (a : α) (l : List α) (ha : p a = true)
    (hall : ∀ b ∈ l, p b = true → r a b) :
    (l.orderedInsert r a).filter p = a :: l.filter p := by
  induction l with
  | nil => simp [List.orderedInsert, ha]
  | cons b rest ih =>
    by_cases h : r a b
    · simp [List.orderedInsert, h, List.filter_cons, ha]
    · have hpb : p b = false := by
        cases hpb : p b
        · rfl
        · exact absurd (hall b (List.mem_cons_self _ _) hpb) h
      have ih' := ih fun c hc hpc => hall c (List.mem_cons_of_mem _ hc) hpc
      simp [List.orderedInsert, h, List.filter_cons, hpb, ih']

/-- Stability of the insertion sort: filtering by a predicate that only
keeps mutually related elements commutes with sorting, so entries of equal
keys keep their original relative order. -/
theorem filter_insertionSort {α : Type} (r : α → α → Prop) [DecidableRel r]
    (p : α → Bool) (hp : ∀ x y, p x = true → p y = true → r x y) (l : List α) :
    (l.insertionSort r).filter p = l.filter p := by
  induction l with
  | nil => rfl
  | cons a rest ih =>
    rw [List.insertionSort]
    cases ha : p a with
    | false =>
      rw [filter_orderedInsert_neg r p a _ ha, ih, List.filter_cons, if_neg (by simp [ha])]
    | true =>
      rw [filter_orderedInsert_pos r p a _ ha
          (fun b _ hpb => hp a b ha (by simpa using hpb)),
        ih, List.filter_cons, if_pos (by simp [ha])]

theorem mmSnapshot_perm (log : List (String × Target)) : (mmSnapshot log).Perm log :=
  List.perm_insertionSort mmLe log

theorem mmSnapshot_sorted (log : List (String × Target)) :
    List.Pairwise mmLe (mmSnapshot log) :=
  List.sorted_insertionSort mmLe log

theorem mmSnapshot_nil_iff (log : List (String × Target)) :
    mmSnapshot log = [] ↔ log = [] := by
  constructor
  · intro h
    have hp := mmSnapshot_perm log
    rw [h] at hp
    exact hp.symm.eq_nil
  · intro h
    rw [h]
    rfl

theorem mmSnapshot_filter_key (log : List (String × Target)) (f : String) :
    (mmSnapshot log).filter (fun e => decide (e.1 = f)) =
      log.filter (fun e => decide (e.1 = f)) := by
  refine filter_insertionSort mmLe _ ?_ log
  intro x y hx hy
  have hx' : x.1 = f := of_decide_eq_true hx
  have hy' : y.1 = f := of_decide_eq_true hy
  show x.1.data ≤ y.1.data
  rw [hx', hy']

theorem dropWhile_key_ne_aux {f : String} (rest : List (String × Target))
    (hp : List.Pairwise mmLe rest)
    (hb : ∀ e ∈ rest, f.data ≤ e.1.data) :
    ∀ e ∈ rest.dropWhile (fun e => decide (e.1 = f)), e.1 ≠ f := by
  induction rest with
  | nil => intro e he; cases he
  | cons g tail ih =>
    by_cases hg : g.1 = f
    · intro e he
      rw [List.dropWhile_cons, if_pos (by simp [hg])] at he
      exact ih (List.Pairwise.of_cons hp)
        (fun e' he' => hb e' (List.mem_cons_of_mem _ he')) e he
    · intro e he
      rw [List.dropWhile_cons, if_neg (by simp [hg])] at he
      rcases List.mem_cons.mp he with rfl | he'
      · exact hg
      · intro hef
        have h1 : mmLe g e := (List.pairwise_cons.mp hp).1 e he'
        have h2 : f.data ≤ g.1.data := hb g (List.mem_cons_self _ _)
        have h3 : g.1.data ≤ f.data := by
          have : e.1.data = f.data := by rw [hef]
          exact this ▸ h1
        exact hg (String.ext (le_antisymm h3 h2))

/-- Under the multimap's sortedness, every entry after the first key's
range has a different key. -/
theorem sorted_dropWhile_key_ne {f : String} {t : Target}
    {rest : List (String × Target)}
    (hs : List.Pairwise mmLe ((f, t) :: rest)) :
    ∀ e ∈ rest.dropWhile (fun e => decide (e.1 = f)), e.1 ≠ f :=
  dropWhile_key_ne_aux rest (List.Pairwise.of_cons hs)
    (fun e he => (List.pairwise_cons.mp hs).1 e he)

theorem mem_collectGroups_key {l : List (String × Target)} {f : String}
    {ts : List Target} (h : (f, ts) ∈ collectGroups l) : f ∈ l.map Prod.fst := by
  induction l using collectGroups.induct with
  | case1 => rw [collectGroups] at h; cases h
  | case2 g t rest ih =>
    rw [collectGroups] at h
    rcases List.mem_cons.mp h with heq | htail
    · have : f = g := congrArg Prod.fst heq
      simp [this]
    · have hmem := ih htail
      have hsub : (rest.dropWhile fun e => decide (e.1 = g)).map Prod.fst
          |>.Sublist (rest.map Prod.fst) :=
        (List.dropWhile_sublist _).map Prod.fst
      exact List.mem_cons_of_mem _ (hsub.mem hmem)

theorem collectGroups_keys_cover (l : List (String × Target)) (f : String) :
    f ∈ (collectGroups l).map Prod.fst ↔ f ∈ l.map Prod.fst := by
  induction l using collectGroups.induct with
  | case1 => rw [collectGroups]; simp
  | case2 g t rest ih =>
    rw [collectGroups]
    simp only [List.map_cons, List.mem_cons]
    constructor
    · rintro (rfl | htail)
      · exact Or.inl rfl
      · have hmem := ih.mp htail
        have hsub : ((rest.dropWhile fun e => decide (e.1 = g)).map Prod.fst).Sublist
            (rest.map Prod.fst) :=
          (List.dropWhile_sublist _).map Prod.fst
        exact Or.inr (hsub.mem hmem)
    · rintro (rfl | htail)
      · exact Or.inl rfl
      · obtain ⟨e, he, hef⟩ := List.mem_map.mp htail
        rw [← List.takeWhile_append_dropWhile (fun e => decide (e.1 = g)) rest] at he
        rcases List.mem_append.mp he with htake | hdrop
        · left
          rw [← hef]
          exact of_decide_eq_true
            (List.mem_takeWhile_imp (p := fun x : String × Target => decide (x.1 = g)) htake)
        · right
          exact ih.mpr (List.mem_map.mpr ⟨e, hdrop, hef⟩)

/-- In a key-sorted entry list, each group of the grouping loop carries
exactly the entries of its key, in order. -/
theorem collectGroups_content {l : List (String × Target)}
    (hs : List.Pairwise mmLe l) {f : String} {ts : List Target}
    (h : (f, ts) ∈ collectGroups l) :
    ts = (l.filter fun e => decide (e.1 = f)).map Prod.snd := by
  induction l using collectGroups.induct with
  | case1 => rw [collectGroups] at h; cases h
  | case2 g t rest ih =>
    rw [collectGroups] at h
    rcases List.mem_cons.mp h with heq | htail
    · have hf : f = g := congrArg Prod.fst heq
      have hts : ts = t :: (rest.takeWhile fun e => decide (e.1 = g)).map Prod.snd :=
        congrArg Prod.snd heq
      subst hf
      have hsplit := List.takeWhile_append_dropWhile
        (p := fun e : String × Target => decide (e.1 = f)) (l := rest)
      have h1 : (rest.takeWhile fun e : String × Target => decide (e.1 = f)).filter
          (fun e => decide (e.1 = f)) =
          rest.takeWhile fun e : String × Target => decide (e.1 = f) :=
        List.filter_eq_self.mpr fun a ha =>
          List.mem_takeWhile_imp (p := fun x : String × Target => decide (x.1 = f)) ha
      have h2 : (rest.dropWhile fun e : String × Target => decide (e.1 = f)).filter
          (fun e => decide (e.1 = f)) = [] :=
        List.filter_eq_nil_iff.mpr fun a ha => by
          simpa using sorted_dropWhile_key_ne hs a ha
      have hrest : rest.filter (fun e => decide (e.1 = f)) =
          rest.takeWhile fun e : String × Target => decide (e.1 = f) := by
        conv_lhs => rw [← hsplit]
        rw [List.filter_append, h1, h2, List.append_nil]
      rw [hts, List.filter_cons, if_pos (by simp), List.map_cons, hrest]
    · have hs' : List.Pairwise mmLe (rest.dropWhile fun e => decide (e.1 = g)) :=
        List.Pairwise.sublist ((List.dropWhile_sublist _).cons _) hs
      have hts := ih hs' htail
      have hfg : f ≠ g := by
        obtain ⟨e, he, hef⟩ := List.mem_map.mp (mem_collectGroups_key htail)
        intro hc
        exact sorted_dropWhile_key_ne hs e he (hef.trans hc)
      have hsplit := List.takeWhile_append_dropWhile
        (p := fun e : String × Target => decide (e.1 = g)) (l := rest)
      have h1 : (rest.takeWhile fun e : String × Target => decide (e.1 = g)).filter
          (fun e => decide (e.1 = f)) = [] :=
        List.filter_eq_nil_iff.mpr fun a ha => by
          have : a.1 = g :=
            of_decide_eq_true
              (List.mem_takeWhile_imp (p := fun x : String × Target => decide (x.1 = g)) ha)
          simp [this, hfg.symm]
      have hrest : rest.filter (fun e => decide (e.1 = f)) =
          (rest.dropWhile fun e => decide (e.1 = g)).filter
            (fun e => decide (e.1 = f)) := by
        conv_lhs => rw [← hsplit]
        rw [List.filter_append, h1, List.nil_append]
      rw [hts, List.filter_cons, if_neg (by simp [hfg.symm]), hrest]

/-- The keys of the groups, in processing order, are strictly ascending in
the byte order of the SourceFile. -/
theorem collectGroups_keys_sorted {l : List (String × Target)}
    (hs : List.Pairwise mmLe l) :
    List.Pairwise (fun a b : String => a.data < b.data)
      ((collectGroups l).map Prod.fst) := by
  induction l using collectGroups.induct with
  | case1 => rw [collectGroups]; simp
  | case2 g t rest ih =>
    rw [collectGroups]
    have hs' : List.Pairwise mmLe (rest.dropWhile fun e => decide (e.1 = g)) :=
      List.Pairwise.sublist ((List.dropWhile_sublist _).cons _) hs
    rw [List.map_cons]
    refine List.pairwise_cons.mpr ⟨?_, ih hs'⟩
    intro k hk
    obtain ⟨e, he, hek⟩ :=
      List.mem_map.mp ((collectGroups_keys_cover _ k).mp hk)
    have hle : g.data ≤ e.1.data :=
      (List.pairwise_cons.mp hs).1 e ((List.dropWhile_sublist _).mem he)
    have hne : e.1 ≠ g := sorted_dropWhile_key_ne hs e he
    have : g.data < e.1.data :=
      lt_of_le_of_ne hle fun hc => hne (String.ext hc.symm)
    rw [← hek]
    exact this

/-- The number of groups equals the number of distinct keys. -/
theorem collectGroups_length {l : List (String × Target)}
    (hs : List.Pairwise mmLe l) :
    (collectGroups l).length = (l.map Prod.fst).toFinset.card := by
  induction l using collectGroups.induct with
  | case1 => rw [collectGroups]; simp
  | case2 g t rest ih =>
    rw [collectGroups]
    have hs' : List.Pairwise mmLe (rest.dropWhile fun e => decide (e.1 = g)) :=
      List.Pairwise.sublist ((List.dropWhile_sublist _).cons _) hs
    have hsplit := List.takeWhile_append_dropWhile
      (p := fun e : String × Target => decide (e.1 = g)) (l := rest)
    have hset : (((g, t) :: rest).map Prod.fst).toFinset =
        insert g ((rest.dropWhile fun e => decide (e.1 = g)).map Prod.fst).toFinset := by
      conv_lhs => rw [← hsplit]
      ext x
      simp only [List.map_cons, List.map_append, List.toFinset_cons,
        List.toFinset_append, Finset.mem_insert, Finset.mem_union,
        List.mem_toFinset, List.mem_map]
      constructor
      · rintro (rfl | ⟨e, he, hex⟩ | hxd)
        · exact Or.inl rfl
        · left
          rw [← hex]
          exact of_decide_eq_true
            (List.mem_takeWhile_imp (p := fun x : String × Target => decide (x.1 = g)) he)
        · exact Or.inr hxd
      · rintro (rfl | hxd)
        · exact Or.inl rfl
        · exact Or.inr (Or.inr hxd)
    have hnotmem : g ∉ ((rest.dropWhile fun e => decide (e.1 = g)).map Prod.fst).toFinset := by
      intro hg
      obtain ⟨e, he, hek⟩ := List.mem_map.mp (List.mem_toFinset.mp hg)
      exact sorted_dropWhile_key_ne hs e he hek
    rw [List.length_cons, ih hs', hset, Finset.card_insert_of_not_mem hnotmem]

/-! ## Claim theorems -/

/-- C10: when the builder holds no resolved targets,
FindTargetThatGeneratesFile reports no producer for any file: the empty
case is handled before the OutputFile is constructed or any target is
scanned. -/
theorem claim10_empty_builder_no_producer (builder : Builder) (file : String)
    (h : builder.GetAllResolvedTargets = []) :
    FindTargetThatGeneratesFile builder file = none := by
  simp [FindTargetThatGeneratesFile, h]

theorem claim10_witness :
    Builder.GetAllResolvedTargets ⟨[]⟩ = [] ∧
    FindTargetThatGeneratesFile ⟨[]⟩ "gen/b.h" = none :=
  ⟨rfl, claim10_empty_builder_no_producer ⟨[]⟩ "gen/b.h" rfl⟩

/-- C6: the resolved-and-generated callback submits exactly one per-target
write task when the record's item is a Target, and that task appends
exactly one (target, fragment) pair under the target's toolchain; for a
non-Target item nothing is submitted and the aggregator is unchanged. -/
theorem claim6_callback_submits_iff_target (record : BuilderRecord) :
    (∀ t, record.item = Item.target t →
      ItemResolvedAndGeneratedCallback record = [t] ∧
      ∀ writeRule wi,
        lookupRules (runScheduled writeRule wi (ItemResolvedAndGeneratedCallback record))
            t.toolchain = lookupRules wi t.toolchain ++ [(t, writeRule t)] ∧
        ∀ tc, tc ≠ t.toolchain →
          lookupRules (runScheduled writeRule wi (ItemResolvedAndGeneratedCallback record))
            tc = lookupRules wi tc) ∧
    (record.item.AsTarget = none →
      ItemResolvedAndGeneratedCallback record = [] ∧
      ∀ writeRule wi,
        runScheduled writeRule wi (ItemResolvedAndGeneratedCallback record) = wi) := by
  constructor
  · intro t ht
    have hcb : ItemResolvedAndGeneratedCallback record = [t] := by
      simp [ItemResolvedAndGeneratedCallback, ht, Item.AsTarget]
    refine ⟨hcb, fun writeRule wi => ?_⟩
    rw [hcb]
    have hrun : runScheduled writeRule wi [t] =
        addRule wi t.toolchain (t, writeRule t) := rfl
    rw [hrun]
    exact ⟨lookupRules_addRule_self wi t.toolchain (t, writeRule t),
      fun tc htc => lookupRules_addRule_other wi t.toolchain tc (t, writeRule t) htc⟩
  · intro hnone
    have hcb : ItemResolvedAndGeneratedCallback record = [] := by
      simp [ItemResolvedAndGeneratedCallback, hnone]
    exact ⟨hcb, fun writeRule wi => by rw [hcb]; rfl⟩

theorem claim6_witness :
    ItemResolvedAndGeneratedCallback ⟨Item.target tgtA⟩ = [tgtA] ∧
    lookupRules
        (runScheduled (fun _ => "rule") []
          (ItemResolvedAndGeneratedCallback ⟨Item.target tgtA⟩)) tgtA.toolchain =
      [] ++ [(tgtA, "rule")] ∧
    ItemResolvedAndGeneratedCallback ⟨Item.other "cfg"⟩ = [] ∧
    runScheduled (fun _ => "rule") []
      (ItemResolvedAndGeneratedCallback ⟨Item.other "cfg"⟩) = [] := by
  have h1 := (claim6_callback_submits_iff_target ⟨Item.target tgtA⟩).1 tgtA rfl
  have h2 := (claim6_callback_submits_iff_target ⟨Item.other "cfg"⟩).2 rfl
  exact ⟨h1.1, (h1.2 (fun _ => "rule") []).1, h2.1, h2.2 (fun _ => "rule") []⟩

/-- C1: after the finalization pass each toolchain's sequence is sorted in
ascending order of the Target's Label; with pairwise distinct labels the
sorted sequence is the same for every insertion order (any permutation),
so the per-toolchain output depends only on the set of pairs; the
finalization pass applies this sort to every toolchain of the
aggregator. -/
theorem claim1_finalization_deterministic (l l' : List (Target × String))
    (hperm : l.Perm l') (hnodup : (l.map fun e => e.1.label).Nodup) :
    List.Sorted ruleLe (sortToolchainRules l) ∧
    (sortToolchainRules l).Perm l ∧
    sortToolchainRules l = sortToolchainRules l' ∧
    (∀ rules : PerToolchainRules, ∀ tc es,
      (tc, es) ∈ finalizeRules rules ↔
        ∃ es₀, (tc, es₀) ∈ rules ∧ es = sortToolchainRules es₀) := by
  refine ⟨List.sorted_insertionSort ruleLe l, List.perm_insertionSort ruleLe l, ?_, ?_⟩
  · have hperm₂ : (sortToolchainRules l).Perm (sortToolchainRules l') :=
      ((List.perm_insertionSort ruleLe l).trans hperm).trans
        (List.perm_insertionSort ruleLe l').symm
    have hnodup₁ : ((sortToolchainRules l).map fun e => e.1.label).Nodup :=
      ((List.perm_insertionSort ruleLe l).map fun e => e.1.label).nodup_iff.mpr hnodup
    exact sorted_perm_unique hperm₂ hnodup₁
      (List.sorted_insertionSort ruleLe l) (List.sorted_insertionSort ruleLe l')
  · intro rules tc es
    constructor
    · intro h
      obtain ⟨p, hp, hpe⟩ := List.mem_map.mp h
      obtain ⟨ptc, pes⟩ := p
      have h1 : ptc = tc := congrArg Prod.fst hpe
      have h2 : sortToolchainRules pes = es := congrArg Prod.snd hpe
      exact ⟨pes, h1 ▸ hp, h2.symm⟩
    · intro ⟨es₀, hmem, hes⟩
      exact List.mem_map.mpr ⟨(tc, es₀), hmem, by rw [hes]⟩

theorem claim1_witness :
    List.Sorted ruleLe (sortToolchainRules [(tgtB, "rb"), (tgtA, "ra")]) ∧
    (sortToolchainRules [(tgtB, "rb"), (tgtA, "ra")]).Perm [(tgtB, "rb"), (tgtA, "ra")] ∧
    sortToolchainRules [(tgtB, "rb"), (tgtA, "ra")] =
      sortToolchainRules [(tgtA, "ra"), (tgtB, "rb")] ∧
    (∀ rules : PerToolchainRules, ∀ tc es,
      (tc, es) ∈ finalizeRules rules ↔
        ∃ es₀, (tc, es₀) ∈ rules ∧ es = sortToolchainRules es₀) :=
  claim1_finalization_deterministic [(tgtB, "rb"), (tgtA, "ra")]
    [(tgtA, "ra"), (tgtB, "rb")] (by decide) (by decide)

/-- C3: the check succeeds iff the multimap snapshot is empty (equivalently
iff nothing was logged); on a non-empty snapshot it fails, emits one
diagnostic per distinct SourceFile, and prints the summary count exactly
when more than one group was found. -/
theorem claim3_check_result (builder : Builder) (log : List (String × Target)) :
    ((CheckForInvalidGeneratedInputs builder log).ok = true ↔ mmSnapshot log = []) ∧
    (mmSnapshot log = [] ↔ log = []) ∧
    (log ≠ [] →
      (CheckForInvalidGeneratedInputs builder log).ok = false ∧
      (CheckForInvalidGeneratedInputs builder log).diags.length =
        (log.map Prod.fst).toFinset.card ∧
      (CheckForInvalidGeneratedInputs builder log).summaryCount =
        (if 1 < (log.map Prod.fst).toFinset.card then
          some ((log.map Prod.fst).toFinset.card) else none)) := by
  refine ⟨?_, mmSnapshot_nil_iff log, ?_⟩
  · by_cases hlog : log = []
    · subst hlog
      simp [CheckForInvalidGeneratedInputs, mmSnapshot]
    · have hsnap : mmSnapshot log ≠ [] := fun h => hlog ((mmSnapshot_nil_iff log).mp h)
      have hempty : (mmSnapshot log).isEmpty = false := by
        cases hcase : mmSnapshot log with
        | nil => exact absurd hcase hsnap
        | cons a l => simp
      simp [CheckForInvalidGeneratedInputs, hempty, hsnap]
  · intro hlog
    have hsnap : mmSnapshot log ≠ [] := fun h => hlog ((mmSnapshot_nil_iff log).mp h)
    have hempty : (mmSnapshot log).isEmpty = false := by
      cases hcase : mmSnapshot log with
      | nil => exact absurd hcase hsnap
      | cons a l => simp
    have hcard : (collectGroups (mmSnapshot log)).length =
        (log.map Prod.fst).toFinset.card := by
      rw [collectGroups_length (mmSnapshot_sorted log)]
      rw [List.toFinset_eq_of_perm _ _ ((mmSnapshot_perm log).map Prod.fst)]
    refine ⟨?_, ?_, ?_⟩
    · simp [CheckForInvalidGeneratedInputs, hempty]
    · simp only [CheckForInvalidGeneratedInputs, hempty, Bool.false_eq_true,
        if_false, List.length_map]
      exact hcard
    · simp only [CheckForInvalidGeneratedInputs, hempty, Bool.false_eq_true,
        if_false, gt_iff_lt]
      rw [hcard]

/-- C5 counterexample: the groups are not processed in first-seen
(insertion) order across files.  With "b.h" logged before "a.h", the
multimap iterates "a.h" first, while the spec's insertion order lists
"b.h" first. -/
theorem claim5_counterexample :
    (collectGroups (mmSnapshot [("b.h", tgtB), ("a.h", tgtA)])).map Prod.fst ≠
      specInsertionOrder ([("b.h", tgtB), ("a.h", tgtA)].map Prod.fst) := by
  have h1 : mmSnapshot [("b.h", tgtB), ("a.h", tgtA)] =
      [("a.h", tgtA), ("b.h", tgtB)] := by decide
  rw [h1]
  simp [collectGroups, specInsertionOrder]

/-- C5 (amended): the validator groups the unknown-generated-input entries
by SourceFile; the groups are processed in ascending byte order of the
SourceFile (the multimap's key order), not in insertion order; within each
group the consumer targets keep their insertion order; the group keys are
exactly the logged SourceFiles. -/
theorem claim5_grouping (log : List (String × Target)) :
    List.Pairwise (fun a b : String => a.data < b.data)
      ((collectGroups (mmSnapshot log)).map Prod.fst) ∧
    (∀ f ts, (f, ts) ∈ collectGroups (mmSnapshot log) →
      ts = (log.filter fun e => decide (e.1 = f)).map Prod.snd) ∧
    (∀ f, f ∈ (collectGroups (mmSnapshot log)).map Prod.fst ↔
      f ∈ log.map Prod.fst) := by
  refine ⟨collectGroups_keys_sorted (mmSnapshot_sorted log), ?_, ?_⟩
  · intro f ts h
    rw [collectGroups_content (mmSnapshot_sorted log) h, mmSnapshot_filter_key]
  · intro f
    rw [collectGroups_keys_cover]
    exact ((mmSnapshot_perm log).map Prod.fst).mem_iff

theorem claim5_witness :
    ("a.h", [tgtA]) ∈ collectGroups (mmSnapshot [("b.h", tgtB), ("a.h", tgtA)]) ∧
    [tgtA] =
      ([("b.h", tgtB), ("a.h", tgtA)].filter
        fun e => decide (e.1 = "a.h")).map Prod.snd := by
  have h1 : mmSnapshot [("b.h", tgtB), ("a.h", tgtA)] =
      [("a.h", tgtA), ("b.h", tgtB)] := by decide
  have hm : ("a.h", [tgtA]) ∈
      collectGroups (mmSnapshot [("b.h", tgtB), ("a.h", tgtA)]) := by
    rw [h1]
    simp [collectGroups]
  exact ⟨hm, (claim5_grouping [("b.h", tgtB), ("a.h", tgtA)]).2.1 "a.h" [tgtA] hm⟩

theorem claim3_witness :
    (CheckForInvalidGeneratedInputs builderDemo [("gen/b.h", tgtA)]).ok = false ∧
    (CheckForInvalidGeneratedInputs builderDemo [("gen/b.h", tgtA)]).diags.length =
      ([(("gen/b.h" : String), tgtA)].map Prod.fst).toFinset.card ∧
    (CheckForInvalidGeneratedInputs builderDemo [("gen/b.h", tgtA)]).summaryCount =
      (if 1 < ([(("gen/b.h" : String), tgtA)].map Prod.fst).toFinset.card then
        some (([(("gen/b.h" : String), tgtA)].map Prod.fst).toFinset.card) else none) :=
  (claim3_check_result builderDemo [("gen/b.h", tgtA)]).2.2 (by decide)

/-- C7: RunGen exits 1 on any argument count other than one; its only exit
codes are 0 and 1; with one positional argument it exits 0 exactly when
setup, load, the ninja write, the runtime-deps step, the generated-inputs
check, and every requested writer succeed, so each fatal error yields 1. -/
theorem claim7_exit_codes (env : GenEnv) (args : List String) :
    (args.length ≠ 1 → RunGen env args = 1) ∧
    (RunGen env args = 0 ∨ RunGen env args = 1) ∧
    (RunGen env args = 0 ↔
      (args.length = 1 ∧ env.setupOk = true ∧ env.loadOk = true ∧
        env.ninjaWriteOk = true ∧ env.runtimeDepsOk = true ∧
        (CheckForInvalidGeneratedInputs env.builder env.unknownLog).ok = true ∧
        (env.cmdline.HasSwitch "ide" = true →
          (RunIdeWriter (env.cmdline.GetSwitchValueASCII "ide") env.cmdline
            env.writers).res = true) ∧
        (env.cmdline.HasSwitch "export-compile-commands" = true →
          env.compileCommandsOk = true) ∧
        (env.cmdline.HasSwitch "export-rust-project" = true →
          env.rustProjectOk = true))) := by
  unfold RunGen
  split_ifs with h1 h2 h3 h4 h5 h6 h7 h8 h9
  · exact ⟨fun _ => rfl, Or.inr rfl, by simp [h1]⟩
  · exact ⟨fun hh => absurd hh (by simpa using h1), Or.inr rfl, by simp [h2]⟩
  · exact ⟨fun hh => absurd hh (by simpa using h1), Or.inr rfl, by simp [h3]⟩
  · exact ⟨fun hh => absurd hh (by simpa using h1), Or.inr rfl, by simp [h4]⟩
  · exact ⟨fun hh => absurd hh (by simpa using h1), Or.inr rfl, by simp [h5]⟩
  · exact ⟨fun hh => absurd hh (by simpa using h1), Or.inr rfl, by simp [h6]⟩
  · refine ⟨fun hh => absurd hh (by simpa using h1), Or.inr rfl, ?_⟩
    simp only [Bool.and_eq_true, Bool.not_eq_true'] at h7
    simp [h7]
  · refine ⟨fun hh => absurd hh (by simpa using h1), Or.inr rfl, ?_⟩
    simp only [Bool.and_eq_true, Bool.not_eq_true'] at h8
    simp [h8]
  · refine ⟨fun hh => absurd hh (by simpa using h1), Or.inr rfl, ?_⟩
    simp only [Bool.and_eq_true, Bool.not_eq_true'] at h9
    simp [h9]
  · refine ⟨fun hh => absurd hh (by simpa using h1), Or.inl rfl, ?_⟩
    simp only [Bool.and_eq_true, Bool.not_eq_true'] at h7 h8 h9
    constructor
    · intro _
      refine ⟨by simpa using h1, by simpa using h2, by simpa using h3,
        by simpa using h4, by simpa using h5, by simpa using h6, ?_, ?_, ?_⟩
      · intro hide
        rcases Decidable.not_and_iff_or_not.mp h7 with hc | hc
        · exact absurd hide hc
        · simpa using hc
      · intro hcc
        rcases Decidable.not_and_iff_or_not.mp h8 with hc | hc
        · exact absurd hcc hc
        · simpa using hc
      · intro hrp
        rcases Decidable.not_and_iff_or_not.mp h9 with hc | hc
        · exact absurd hrp hc
        · simpa using hc
    · intro _
      rfl

theorem claim7_witness :
    (([] : List String).length ≠ 1 → RunGen envDemo [] = 1) ∧
    (RunGen envDemo ["out"] = 0 ∨ RunGen envDemo ["out"] = 1) ∧
    RunGen envDemo [] = 1 ∧ RunGen envDemo ["out"] = 0 := by
  refine ⟨(claim7_exit_codes envDemo []).1, (claim7_exit_codes envDemo ["out"]).2.1,
    (claim7_exit_codes envDemo []).1 (by decide), ?_⟩
  refine (claim7_exit_codes envDemo ["out"]).2.2.mpr
    ⟨rfl, rfl, rfl, rfl, rfl, by decide, ?_, ?_, ?_⟩
  · intro h
    exact absurd h (by decide)
  · intro h
    exact absurd h (by decide)
  · intro h
    exact absurd h (by decide)

/-- C2: the producer named in a generated-input diagnostic is the result
of scanning all resolved targets for one whose computed_outputs contain
the OutputFile corresponding to the file: when the scan finds a producer
the diagnostic ends by naming it, and when no resolved target's
computed_outputs contain that OutputFile the diagnostic ends with the
no-targets-generate-that-file sentence. -/
theorem claim2_producer_scan (builder : Builder) (file : String) :
    (∀ g, FindTargetThatGeneratesFile builder file = some g →
      g ∈ builder.GetAllResolvedTargets ∧
      (∀ t0 rest, builder.GetAllResolvedTargets = t0 :: rest →
        outputFileOf t0.settings.build_settings file ∈ g.computed_outputs) ∧
      (∀ targets, targets ≠ [] →
        ∃ p, (PrintInvalidGeneratedInput builder file targets).message =
          p ++ ("but this file was not generated by any dependencies of the " ++
            (if targets.length > 1 then "targets" else "target") ++
            ". The target\nthat generates the file is:\n  " ++
            g.label.getUserVisibleName (showToolchains builder file targets)))) ∧
    (FindTargetThatGeneratesFile builder file = none →
      (∀ t0 rest, builder.GetAllResolvedTargets = t0 :: rest →
        ∀ t ∈ builder.GetAllResolvedTargets,
          outputFileOf t0.settings.build_settings file ∉ t.computed_outputs) ∧
      (∀ targets, targets ≠ [] →
        ∃ p, (PrintInvalidGeneratedInput builder file targets).message =
          p ++ "but no targets in the build generate that file.")) := by
  constructor
  · intro g hg
    refine ⟨?_, ?_, ?_⟩
    · cases hb : builder.GetAllResolvedTargets with
      | nil =>
        simp only [FindTargetThatGeneratesFile, hb] at hg
        exact Option.noConfusion hg
      | cons t0 rest =>
        simp only [FindTargetThatGeneratesFile, hb] at hg
        exact List.mem_of_find?_eq_some hg
    · intro t0 rest hb
      simp only [FindTargetThatGeneratesFile, hb] at hg
      have hp := List.find?_some hg
      exact List.elem_iff.mp hp
    · intro targets htne
      obtain ⟨t0, ts, rfl⟩ := List.exists_cons_of_ne_nil htne
      exact ⟨"The file:\n" ++ ("  " ++ file ++ "\n") ++
        ("is listed as an input or source for the " ++
          (if (t0 :: ts).length > 1 then "targets" else "target") ++ ":\n") ++
        concatAll ((t0 :: ts).map fun t =>
          "  " ++ t.label.getUserVisibleName (showToolchains builder file (t0 :: ts)) ++ "\n"),
        by simp only [PrintInvalidGeneratedInput, hg]⟩
  · intro hg
    constructor
    · intro t0 rest hb t ht hmem
      simp only [FindTargetThatGeneratesFile, hb] at hg
      have := List.find?_eq_none.mp hg t (hb ▸ ht)
      exact this (List.elem_iff.mpr hmem)
    · intro targets htne
      obtain ⟨t0, ts, rfl⟩ := List.exists_cons_of_ne_nil htne
      exact ⟨"The file:\n" ++ ("  " ++ file ++ "\n") ++
        ("is listed as an input or source for the " ++
          (if (t0 :: ts).length > 1 then "targets" else "target") ++ ":\n") ++
        concatAll ((t0 :: ts).map fun t =>
          "  " ++ t.label.getUserVisibleName (showToolchains builder file (t0 :: ts)) ++ "\n"),
        by simp only [PrintInvalidGeneratedInput, hg]⟩

theorem claim2_witness :
    FindTargetThatGeneratesFile builderDemo "gen/b.h" = some tgtB ∧
    tgtB ∈ builderDemo.GetAllResolvedTargets ∧
    outputFileOf tgtA.settings.build_settings "gen/b.h" ∈ tgtB.computed_outputs ∧
    ∃ p, (PrintInvalidGeneratedInput builderDemo "gen/b.h" [tgtA]).message =
      p ++ ("but this file was not generated by any dependencies of the " ++
        (if ([tgtA] : List Target).length > 1 then "targets" else "target") ++
        ". The target\nthat generates the file is:\n  " ++
        tgtB.label.getUserVisibleName (showToolchains builderDemo "gen/b.h" [tgtA])) := by
  have hfind : FindTargetThatGeneratesFile builderDemo "gen/b.h" = some tgtB := by decide
  have h := (claim2_producer_scan builderDemo "gen/b.h").1 tgtB hfind
  exact ⟨hfind, h.1, h.2.1 tgtA [tgtB] rfl, h.2.2 [tgtA] (by decide)⟩

/-- C4: the diagnostic renders labels with toolchain suffixes exactly when
some consumer target, or the producer when one exists, is not on the
default toolchain; every consumer label in the message is rendered at that
flag, and the rendering carries the toolchain annotation iff the flag is
set. -/
theorem claim4_toolchain_suffix (builder : Builder) (file : String)
    (t0 : Target) (ts : List Target) :
    (showToolchains builder file (t0 :: ts) = true ↔
      ((∃ t ∈ t0 :: ts,
          t.settings.toolchain_label ≠ t0.settings.default_toolchain_label) ∨
        (∃ g, FindTargetThatGeneratesFile builder file = some g ∧
          g.settings.toolchain_label ≠ t0.settings.default_toolchain_label))) ∧
    (∀ t ∈ t0 :: ts, ∃ p q,
      (PrintInvalidGeneratedInput builder file (t0 :: ts)).message =
        p ++ (t.label.getUserVisibleName (showToolchains builder file (t0 :: ts)) ++ q)) ∧
    (∀ l : Label, l.getUserVisibleName false = "//" ++ l.dir ++ ":" ++ l.name) ∧
    (∀ l : Label, l.getUserVisibleName true =
      "//" ++ l.dir ++ ":" ++ l.name ++ ("(" ++ l.toolchain ++ ")")) := by
  refine ⟨?_, ?_, ?_, ?_⟩
  · cases hf : FindTargetThatGeneratesFile builder file with
    | none =>
      simp [showToolchains, hf, List.any_eq_true]
    | some g =>
      simp [showToolchains, hf, List.any_eq_true]
  · intro t ht
    obtain ⟨p, q, hpq⟩ := concatAll_split
      (fun t => "  " ++ t.label.getUserVisibleName (showToolchains builder file (t0 :: ts)) ++ "\n")
      ht
    cases hf : FindTargetThatGeneratesFile builder file with
    | none =>
      refine ⟨"The file:\n" ++ ("  " ++ file ++ "\n") ++
        ("is listed as an input or source for the " ++
          (if (t0 :: ts).length > 1 then "targets" else "target") ++ ":\n") ++ p ++ "  ",
        "\n" ++ q ++ "but no targets in the build generate that file.", ?_⟩
      simp only [PrintInvalidGeneratedInput, hf, hpq]
      simp [String.append_assoc]
    | some g =>
      refine ⟨"The file:\n" ++ ("  " ++ file ++ "\n") ++
        ("is listed as an input or source for the " ++
          (if (t0 :: ts).length > 1 then "targets" else "target") ++ ":\n") ++ p ++ "  ",
        "\n" ++ q ++
          ("but this file was not generated by any dependencies of the " ++
            (if (t0 :: ts).length > 1 then "targets" else "target") ++
            ". The target\nthat generates the file is:\n  " ++
            g.label.getUserVisibleName (showToolchains builder file (t0 :: ts))), ?_⟩
      simp only [PrintInvalidGeneratedInput, hf, hpq]
      simp [String.append_assoc]
  · intro l
    simp [Label.getUserVisibleName]
  · intro l
    simp [Label.getUserVisibleName]

theorem claim4_witness :
    (showToolchains builderDemo "gen/b.h" [tgtA] = true ↔
      ((∃ t ∈ [tgtA],
          t.settings.toolchain_label ≠ tgtA.settings.default_toolchain_label) ∨
        (∃ g, FindTargetThatGeneratesFile builderDemo "gen/b.h" = some g ∧
          g.settings.toolchain_label ≠ tgtA.settings.default_toolchain_label))) ∧
    (∃ p q, (PrintInvalidGeneratedInput builderDemo "gen/b.h" [tgtA]).message =
      p ++ (tgtA.label.getUserVisibleName (showToolchains builderDemo "gen/b.h" [tgtA]) ++ q)) ∧
    Label.getUserVisibleName ⟨"a", "a", ""⟩ false = "//" ++ "a" ++ ":" ++ "a" := by
  have h := claim4_toolchain_suffix builderDemo "gen/b.h" tgtA []
  exact ⟨h.1, h.2.1 tgtA (by decide), h.2.2.1 ⟨"a", "a", ""⟩⟩

/-- C8 counterexample: "xcode" is in the closed tag set, yet with an
invalid xcode-build-system value RunIdeWriter fails before invoking the
Xcode writer, with an Unknown-build-system error rather than invoking the
writer. -/
theorem claim8_counterexample :
    "xcode" ∈ knownIdeTags ∧
    RunIdeWriter "xcode" ⟨[("xcode-build-system", "bogus")]⟩ writersDemo =
      ⟨false, none, some "Unknown build system: bogus"⟩ := by
  decide

/-- C8 (amended): every tag outside the closed set fails with the
Unknown-IDE error and makes the gen command exit 1; every tag in the set
invokes its writer, except that the xcode tag with an xcode-build-system
value outside legacy/new/empty fails with an Unknown-build-system error
before invoking the writer. -/
theorem claim8_ide_dispatch (ide : String) (cl : CmdLine) (w : WriterOutcomes) :
    (ide ∉ knownIdeTags →
      RunIdeWriter ide cl w = ⟨false, none, some ("Unknown IDE: " ++ ide)⟩) ∧
    (ide ∈ knownIdeTags →
      (¬(ide = "xcode" ∧ cl.GetSwitchValueASCII "xcode-build-system" ∉
          (["", "new", "legacy"] : List String)) →
        (RunIdeWriter ide cl w).invoked = specKindForTag ide) ∧
      ((ide = "xcode" ∧ cl.GetSwitchValueASCII "xcode-build-system" ∉
          (["", "new", "legacy"] : List String)) →
        RunIdeWriter ide cl w =
          ⟨false, none, some ("Unknown build system: " ++
            cl.GetSwitchValueASCII "xcode-build-system")⟩)) ∧
    (∀ env : GenEnv, ∀ d : String, env.cmdline = cl →
      env.setupOk = true → env.loadOk = true → env.ninjaWriteOk = true →
      env.runtimeDepsOk = true →
      (CheckForInvalidGeneratedInputs env.builder env.unknownLog).ok = true →
      cl.HasSwitch "ide" = true → cl.GetSwitchValueASCII "ide" = ide →
      ide ∉ knownIdeTags → RunGen env [d] = 1) := by
  have hunk : ∀ w' : WriterOutcomes, ide ∉ knownIdeTags →
      RunIdeWriter ide cl w' = ⟨false, none, some ("Unknown IDE: " ++ ide)⟩ := by
    intro w' hnot
    simp only [knownIdeTags, List.mem_cons, List.not_mem_nil, or_false] at hnot
    push_neg at hnot
    obtain ⟨h1, h2, h3, h4, h5, h6, h7, h8, h9⟩ := hnot
    simp [RunIdeWriter, h1, h2, h3, h4, h5, h6, h7, h8, h9]
  refine ⟨hunk w, ?_, ?_⟩
  · intro hmem
    have hmem' : ide = "eclipse" ∨ ide = "vs" ∨ ide = "vs2013" ∨ ide = "vs2015" ∨
        ide = "vs2017" ∨ ide = "vs2019" ∨ ide = "xcode" ∨ ide = "qtcreator" ∨
        ide = "json" := by
      simpa [knownIdeTags] using hmem
    constructor
    · intro hnx
      rcases hmem' with rfl | rfl | rfl | rfl | rfl | rfl | rfl | rfl | rfl
      · simp [RunIdeWriter, specKindForTag]
      · simp [RunIdeWriter, specKindForTag]
      · simp [RunIdeWriter, specKindForTag]
      · simp [RunIdeWriter, specKindForTag]
      · simp [RunIdeWriter, specKindForTag]
      · simp [RunIdeWriter, specKindForTag]
      · have hbs : cl.GetSwitchValueASCII "xcode-build-system" ∈
            (["", "new", "legacy"] : List String) := by
          by_contra hc
          exact hnx ⟨rfl, hc⟩
        simp only [List.mem_cons, List.not_mem_nil, or_false] at hbs
        rcases hbs with hb | hb | hb
        · simp [RunIdeWriter, specKindForTag, hb]
        · simp [RunIdeWriter, specKindForTag, hb]
        · simp [RunIdeWriter, specKindForTag, hb]
      · simp [RunIdeWriter, specKindForTag]
      · simp [RunIdeWriter, specKindForTag]
    · rintro ⟨rfl, hbs⟩
      simp only [List.mem_cons, List.not_mem_nil, or_false] at hbs
      push_neg at hbs
      obtain ⟨hb1, hb2, hb3⟩ := hbs
      simp [RunIdeWriter, hb1, hb2, hb3]
  · intro env d henvcl hsetup hload hninja hrt hcheck hhas hval hnot
    have hres : (RunIdeWriter (env.cmdline.GetSwitchValueASCII "ide") env.cmdline
        env.writers).res = false := by
      rw [henvcl, hval, hunk env.writers hnot]
    unfold RunGen
    simp [henvcl, hsetup, hload, hninja, hrt, hcheck, hhas, hres,
      henvcl ▸ hhas, henvcl ▸ hres]

theorem claim8_witness :
    RunIdeWriter "unknown" ⟨[]⟩ writersDemo =
      ⟨false, none, some ("Unknown IDE: " ++ "unknown")⟩ ∧
    (RunIdeWriter "eclipse" ⟨[]⟩ writersDemo).invoked = specKindForTag "eclipse" ∧
    RunIdeWriter "xcode" ⟨[("xcode-build-system", "bogus")]⟩ writersDemo =
      ⟨false, none, some ("Unknown build system: " ++
        CmdLine.GetSwitchValueASCII ⟨[("xcode-build-system", "bogus")]⟩
          "xcode-build-system")⟩ ∧
    RunGen envUnknownIde ["out"] = 1 := by
  refine ⟨(claim8_ide_dispatch "unknown" ⟨[]⟩ writersDemo).1 (by decide),
    ((claim8_ide_dispatch "eclipse" ⟨[]⟩ writersDemo).2.1 (by decide)).1 (by decide),
    ((claim8_ide_dispatch "xcode" ⟨[("xcode-build-system", "bogus")]⟩
      writersDemo).2.1 (by decide)).2 (by decide),
    (claim8_ide_dispatch "unknown" envUnknownIde.cmdline writersDemo).2.2
      envUnknownIde "out" rfl rfl rfl rfl rfl (by decide) (by decide) (by decide)
      (by decide)⟩

theorem mem_setInsert (s : List Target) (x t : Target) :
    t ∈ setInsert s x ↔ t ∈ s ∨ t = x := by
  by_cases h : x ∈ s
  · simp only [setInsert, if_pos h]
    constructor
    · exact Or.inl
    · rintro (ht | rfl)
      · exact ht
      · exact h
  · simp [setInsert, if_neg h]

theorem foldl_jumboStep_allowed (entries : List (Target × String))
    (acc : Nat × Nat × List Target) :
    (entries.foldl jumboStep acc).1 =
      acc.1 + entries.countP
        (fun e => e.1.is_jumbo_configured && e.1.is_jumbo_allowed) := by
  induction entries generalizing acc with
  | nil => simp
  | cons e rest ih =>
    rw [List.foldl_cons, ih, List.countP_cons]
    cases h1 : e.1.is_jumbo_configured <;> cases h2 : e.1.is_jumbo_allowed <;>
      cases h3 : e.1.IsBinary <;> simp [jumboStep, h1, h2, h3] <;> omega

theorem foldl_jumboStep_disallowed (entries : List (Target × String))
    (acc : Nat × Nat × List Target) :
    (entries.foldl jumboStep acc).2.1 =
      acc.2.1 + entries.countP
        (fun e => e.1.is_jumbo_configured && !e.1.is_jumbo_allowed) := by
  induction entries generalizing acc with
  | nil => simp
  | cons e rest ih =>
    rw [List.foldl_cons, ih, List.countP_cons]
    cases h1 : e.1.is_jumbo_configured <;> cases h2 : e.1.is_jumbo_allowed <;>
      cases h3 : e.1.IsBinary <;> simp [jumboStep, h1, h2, h3] <;> omega

theorem foldl_jumboStep_nc (entries : List (Target × String))
    (acc : Nat × Nat × List Target) (t : Target) :
    t ∈ (entries.foldl jumboStep acc).2.2 ↔
      t ∈ acc.2.2 ∨ (∃ s, (t, s) ∈ entries ∧
        t.is_jumbo_configured = false ∧ t.IsBinary = true) := by
  induction entries generalizing acc with
  | nil => simp
  | cons e rest ih =>
    rw [List.foldl_cons, ih]
    have hmem : ∀ u, u ∈ (jumboStep acc e).2.2 ↔
        u ∈ acc.2.2 ∨ (u = e.1 ∧ e.1.is_jumbo_configured = false ∧
          e.1.IsBinary = true) := by
      intro u
      cases h1 : e.1.is_jumbo_configured <;> cases h2 : e.1.is_jumbo_allowed <;>
        cases h3 : e.1.IsBinary <;> simp [jumboStep, h1, h2, h3, mem_setInsert]
    rw [hmem]
    constructor
    · rintro ((ht | ⟨rfl, hc, hb⟩) | ⟨s, hs, hc, hb⟩)
      · exact Or.inl ht
      · refine Or.inr ⟨e.2, ?_, hc, hb⟩
        rw [Prod.mk.eta]
        exact List.mem_cons_self _ _
      · exact Or.inr ⟨s, List.mem_cons_of_mem _ hs, hc, hb⟩
    · rintro (ht | ⟨s, hs, hc, hb⟩)
      · exact Or.inl (Or.inl ht)
      · rcases List.mem_cons.mp hs with heq | hs'
        · have ht1 : t = e.1 := congrArg Prod.fst heq
          exact Or.inl (Or.inr ⟨ht1, ht1 ▸ hc, ht1 ▸ hb⟩)
        · exact Or.inr ⟨s, hs', hc, hb⟩

theorem jumboTally_eq_flatten (rules : PerToolchainRules) :
    jumboTally rules = ((rules.map Prod.snd).flatten).foldl jumboStep (0, 0, []) := by
  unfold jumboTally
  generalize (0, 0, ([] : List Target)) = acc
  induction rules generalizing acc with
  | nil => simp
  | cons p rest ih =>
    rw [List.foldl_cons, List.map_cons, List.flatten_cons, List.foldl_append, ih]

/-- C9 counterexample: the allowed/disallowed tally is not restricted to
binary targets.  With a single jumbo-configured, jumbo-allowed, non-binary
target in the aggregator, the allowed tally is 1 while the number of
jumbo-configured, jumbo-allowed, binary entries is 0: the loop at
command_gen.cc:558-562 never consults IsBinary for configured targets. -/
theorem claim9_counterexample :
    (jumboTally [(tcDefault, [(tgtJ, "rj")])]).1 = 1 ∧
    ((([(tcDefault, [(tgtJ, "rj")])] : PerToolchainRules).map Prod.snd).flatten).countP
        (fun e => e.1.is_jumbo_configured && e.1.is_jumbo_allowed && e.1.IsBinary) = 0 ∧
    (jumboTally [(tcDefault, [(tgtJ, "rj")])]).1 ≠
      ((([(tcDefault, [(tgtJ, "rj")])] : PerToolchainRules).map Prod.snd).flatten).countP
        (fun e => e.1.is_jumbo_configured && e.1.is_jumbo_allowed && e.1.IsBinary) := by
  decide

/-- C9 (amended): with jumbo statistics requested, the report counts the
allowed and the disallowed among all jumbo-configured entries, binary or
not; the binary classification only gates the not-configured bucket, which
collects binary targets without jumbo configuration and is printed sorted
in ascending order of the number of source files. -/
theorem claim9_jumbo_stats (rules : PerToolchainRules) :
    (jumboTally rules).1 =
      ((rules.map Prod.snd).flatten).countP
        (fun e => e.1.is_jumbo_configured && e.1.is_jumbo_allowed) ∧
    (jumboTally rules).2.1 =
      ((rules.map Prod.snd).flatten).countP
        (fun e => e.1.is_jumbo_configured && !e.1.is_jumbo_allowed) ∧
    (∀ t, t ∈ (jumboTally rules).2.2 ↔
      ∃ s, (t, s) ∈ (rules.map Prod.snd).flatten ∧
        t.is_jumbo_configured = false ∧ t.IsBinary = true) ∧
    List.Sorted srcCountLe (jumboNotConfiguredReport (jumboTally rules).2.2) ∧
    (jumboNotConfiguredReport (jumboTally rules).2.2).Perm (jumboTally rules).2.2 := by
  rw [jumboTally_eq_flatten]
  refine ⟨?_, ?_, ?_, List.sorted_insertionSort srcCountLe _,
    List.perm_insertionSort srcCountLe _⟩
  · rw [foldl_jumboStep_allowed]
    simp
  · rw [foldl_jumboStep_disallowed]
    simp
  · intro t
    rw [foldl_jumboStep_nc]
    simp

end GnGen
